import Mathlib

/-!
Shallow embedding of the gpumon sampling pipeline (src/main.rs).

Modelling conventions:
- Rust strings are lists of characters (`Str`).
- Rust `Duration` is a count of nanoseconds (`Nat`). The constructors
  `from_nanos` / `from_micros` / `from_millis` never overflow a `Duration`
  (its range is 2^64 seconds), so parsed durations are exact naturals.
  `Duration` subtraction panics on underflow in Rust; it is modelled by
  `durSub`, returning `none` in the panic case.
- `u64` / `u32` values are naturals; the range checks the source performs
  (integer parsing rejects out-of-range input) are explicit, and the one
  unchecked `u64` multiplication in the source (memory fallback unit
  conversion) is reduced modulo 2^64, matching release-mode wrapping.
- `f32` rate arithmetic is idealised as exact rational arithmetic; the
  structural facts proved about the rate formula are independent of
  floating-point rounding.
- `HashMap` is an association list with distinct keys; iteration order is
  immaterial to every property proved here (sums are commutative, and the
  membership facts are order-insensitive).
- File I/O is a value of type `Option (List Str)`: `none` stands for a file
  that could not be opened or read, `some lines` for its line list.
-/

abbrev Str := List Char

/-- Rust str::split_once(c): split at the first occurrence of c, returning
the parts before and after it, or none if c does not occur. -/
def splitOnceAt (c : Char) : Str → Option (Str × Str)
  | [] => none
  | x :: t =>
    if x = c then some ([], t)
    else (splitOnceAt c t).map (fun p => (x :: p.1, p.2))

/-- Rust str::trim_start: drop leading whitespace (ASCII whitespace, which
covers all fdinfo content). -/
def trimStart (s : Str) : Str := s.dropWhile Char.isWhitespace

/-- Numeric value of a decimal digit character. -/
def digitVal (c : Char) : Option Nat :=
  if '0' ≤ c ∧ c ≤ '9' then some (c.toNat - 48) else none

/-- Decimal value of a nonempty all-digit string; none otherwise. -/
def digitsVal (s : Str) : Option Nat :=
  match s with
  | [] => none
  | _ =>
    s.foldl
      (fun acc c =>
        match acc, digitVal c with
        | some a, some d => some (a * 10 + d)
        | _, _ => none)
      (some 0)

/-- Rust unsigned integer FromStr: an optional leading plus sign, then one
or more decimal digits, rejecting values outside the type range. -/
def parseUInt (bound : Nat) (s : Str) : Option Nat :=
  let core :=
    match s with
    | '+' :: t => digitsVal t
    | _ => digitsVal s
  match core with
  | some n => if n < bound then some n else none
  | none => none

def parseU64 : Str → Option Nat := parseUInt (2 ^ 64)

def parseU32 : Str → Option Nat := parseUInt (2 ^ 32)

/-- The closure duration_from_string in read_fdinfo: value is
"<integer> <unit>"; ns/us/ms convert to a Duration (here: nanoseconds);
a missing space, an unparseable integer, or any other unit gives zero. -/
def duration_from_string (s : Str) : Nat :=
  match splitOnceAt ' ' s with
  | none => 0
  | some sp =>
    match parseU64 sp.1 with
    | none => 0
    | some amount =>
      if sp.2 = ['n', 's'] then amount
      else if sp.2 = ['u', 's'] then amount * 1000
      else if sp.2 = ['m', 's'] then amount * 1000000
      else 0

/-- The closure ram_from_string in read_fdinfo: value is
"<integer> <unit>"; kib passes through, mib divides by 1024, any other
unit multiplies by 1024 (wrapping u64 multiplication); a missing space
gives 0 and an unparseable integer is treated as 0. -/
def ram_from_string (s : Str) : Nat :=
  match splitOnceAt ' ' s with
  | none => 0
  | some sp =>
    let amount := (parseU64 sp.1).getD 0
    if sp.2 = ['k', 'i', 'b'] then amount
    else if sp.2 = ['m', 'i', 'b'] then amount / 1024
    else amount * 1024 % 2 ^ 64

/-- struct DrmData: six engine busy times (nanoseconds) and three memory
sizes (kibibytes, u64). -/
structure DrmData where
  render_time : Nat
  computation_time : Nat
  copy_time : Nat
  encode_time : Nat
  decode_time : Nat
  video_enhance_time : Nat
  vram : Nat
  gtt : Nat
  cpuram : Nat
  deriving DecidableEq

/-- DrmData::new: all fields zero. -/
def DrmData.new : DrmData where
  render_time := 0
  computation_time := 0
  copy_time := 0
  encode_time := 0
  decode_time := 0
  video_enhance_time := 0
  vram := 0
  gtt := 0
  cpuram := 0

/-- DrmData::add: field-wise addition. Memory fields are u64 and wrap
modulo 2^64 (release-mode Rust); Duration addition panics above
Duration::MAX, a region the theorems below stay beneath via explicit
range hypotheses. -/
def DrmData.add (self other : DrmData) : DrmData where
  render_time := self.render_time + other.render_time
  computation_time := self.computation_time + other.computation_time
  copy_time := self.copy_time + other.copy_time
  encode_time := self.encode_time + other.encode_time
  decode_time := self.decode_time + other.decode_time
  video_enhance_time := self.video_enhance_time + other.video_enhance_time
  vram := (self.vram + other.vram) % 2 ^ 64
  gtt := (self.gtt + other.gtt) % 2 ^ 64
  cpuram := (self.cpuram + other.cpuram) % 2 ^ 64

/-- Duration::as_secs_f32 on a nanosecond count, idealised in ℚ. -/
def nanosToSecs (n : Nat) : ℚ := (n : ℚ) / 1000000000

/-- Rust Duration subtraction: panics (none) when the subtrahend is
larger. -/
def durSub (a b : Nat) : Option Nat :=
  if b ≤ a then some (a - b) else none

/-- struct GpuUsage: six per-engine rates plus the retained previous
snapshot and its capture timestamp (nanoseconds since an arbitrary
origin, standing for Instant). -/
structure GpuUsage where
  render : ℚ
  computation : ℚ
  copy : ℚ
  encode : ℚ
  decode : ℚ
  video_enhance : ℚ
  last_drm_data : DrmData
  last_calc_timestamp : Nat
  deriving DecidableEq

/-- GpuUsage::new(calc_timestamp): zero rates, zero snapshot, timestamp as
given. -/
def GpuUsage.new (calc_timestamp : Nat) : GpuUsage where
  render := 0
  computation := 0
  copy := 0
  encode := 0
  decode := 0
  video_enhance := 0
  last_drm_data := DrmData.new
  last_calc_timestamp := calc_timestamp

/-- GpuUsage::update: each rate is set to the busy-time delta (seconds)
MULTIPLIED by the elapsed wall time (seconds); the new snapshot and
timestamp are stored. Instant subtraction saturates at zero (Nat
subtraction); Duration subtraction of the per-field counters panics on
underflow, modelled by the Option. -/
def GpuUsage.update (self : GpuUsage) (new_drm : DrmData) (calc_timestamp : Nat) :
    Option GpuUsage := do
  let duration_fraction := nanosToSecs (calc_timestamp - self.last_calc_timestamp)
  let r ← durSub new_drm.render_time self.last_drm_data.render_time
  let c ← durSub new_drm.computation_time self.last_drm_data.computation_time
  let cp ← durSub new_drm.copy_time self.last_drm_data.copy_time
  let e ← durSub new_drm.encode_time self.last_drm_data.encode_time
  let d ← durSub new_drm.decode_time self.last_drm_data.decode_time
  let v ← durSub new_drm.video_enhance_time self.last_drm_data.video_enhance_time
  pure
    { render := nanosToSecs r * duration_fraction
      computation := nanosToSecs c * duration_fraction
      copy := nanosToSecs cp * duration_fraction
      encode := nanosToSecs e * duration_fraction
      decode := nanosToSecs d * duration_fraction
      video_enhance := nanosToSecs v * duration_fraction
      last_drm_data := new_drm
      last_calc_timestamp := calc_timestamp }

/-- The rate formula the spec documents as intended (section 4.4): busy
delta divided by elapsed wall time. Modelled from the spec, for comparison
with GpuUsage.update. -/
def specRate (deltaNanos elapsedNanos : Nat) : ℚ :=
  nanosToSecs deltaNanos / nanosToSecs elapsedNanos

/-- A parsed fdinfo record: a finite string-to-string map, modelled as a
lookup function (HashMap semantics: a later insert with the same key
overwrites an earlier one). -/
abbrev Record := Str → Option Str

def emptyRecord : Record := fun _ => none

/-- HashMap::insert of one key/value pair. -/
def recInsert (m : Record) (kv : Str × Str) : Record :=
  fun k => if k = kv.1 then some kv.2 else m k

/-- The line filter in read_fdinfo: l.starts_with("drm"). -/
def startsWithDrm : Str → Bool
  | 'd' :: 'r' :: 'm' :: _ => true
  | _ => false

/-- The per-line mapping in read_fdinfo: split_once(":") with ("", "") as
the fallback for a colonless line, trimming the start of the value. -/
def splitLine (l : Str) : Str × Str :=
  let sp := (splitOnceAt ':' l).getD ([], [])
  (sp.1, trimStart sp.2)

/-- One accounting file turned into a Record: an unreadable file (none)
gives the empty map; otherwise keep the lines starting with "drm", split
each, and collect into a map (later lines win on key collision). -/
def parseFile : Option (List Str) → Record
  | none => emptyRecord
  | some ls => ((ls.filter startsWithDrm).map splitLine).foldl recInsert emptyRecord

def DRM_CLIENT_ID : Str := ("drm-client-id".data)

def KEY_RENDER : Str := ("drm-engine-render".data)

def KEY_GFX : Str := ("drm-engine-gfx".data)

def KEY_DEC : Str := ("drm-engine-dec".data)

def KEY_ENC : Str := ("drm-engine-enc".data)

def KEY_ENC1 : Str := ("drm-engine-enc_1".data)

def KEY_VIDEO : Str := ("drm-engine-video".data)

def KEY_COMPUTE : Str := ("drm-engine-compute".data)

def KEY_VIDEO_ENHANCE : Str := ("drm-engine-video-enhance".data)

def KEY_COPY : Str := ("drm-engine-copy".data)

def KEY_VRAM : Str := ("drm-memory-vram".data)

def KEY_GTT : Str := ("drm-memory-gtt".data)

def KEY_CPU : Str := ("drm-memory-cpu".data)

def KEY_PDEV : Str := ("drm-pdev".data)

/-- Association-list lookup (HashMap::get). -/
def lookupA {α β : Type} [DecidableEq α] : List (α × β) → α → Option β
  | [], _ => none
  | e :: t, k => if e.1 = k then some e.2 else lookupA t k

/-- Association-list insert-or-replace (HashMap::insert). -/
def insertA {α β : Type} [DecidableEq α] (k : α) (v : β) : List (α × β) → List (α × β)
  | [] => [(k, v)]
  | e :: t => if e.1 = k then (k, v) :: t else e :: insertA k v t

/-- Association-list key removal (HashMap::remove). -/
def removeA {α β : Type} [DecidableEq α] (k : α) (l : List (α × β)) : List (α × β) :=
  l.filter (fun e => decide (e.1 ≠ k))

/-- The drm_map key: e[DRM_CLIENT_ID].parse::<u32>().unwrap_or(0). The
filter preceding this guarantees the key is present; 0 is also the
fallback for an unparseable value. -/
def clientKey (r : Record) : Nat :=
  match r DRM_CLIENT_ID with
  | some v => (parseU32 v).getD 0
  | none => 0

/-- The filter in read_fdinfo: keep records containing a client id. -/
def filterClient (rs : List Record) : List Record :=
  rs.filter (fun r => (r DRM_CLIENT_ID).isSome)

/-- Collecting keyed records into drm_map: HashMap::collect, later records
overwriting earlier ones with the same client key. -/
def dedupRecords (rs : List Record) : List (Nat × Record) :=
  rs.foldl (fun m r => insertA (clientKey r) r m) []

def durOf (r : Record) (k : Str) : Nat :=
  match r k with
  | some v => duration_from_string v
  | none => 0

def ramOf (r : Record) (k : Str) : Nat :=
  match r k with
  | some v => ram_from_string v
  | none => 0

/-- The normalization body in read_fdinfo: a fresh DrmData accumulates
each recognized key if present (the if-let chain of += updates collapses
to these sums); the drm-engine-video value feeds encode and decode alike;
the device key is drm-pdev, defaulting to the empty string. No Duration
overflow is reachable here: each parsed duration is at most
(2^64 - 1) * 10^6 ns and at most three are summed per field, well below
Duration::MAX; memory values are already below 2^64. -/
def normalizeRecord (r : Record) : Str × DrmData :=
  ((r KEY_PDEV).getD [],
    { render_time := durOf r KEY_RENDER + durOf r KEY_GFX
      computation_time := durOf r KEY_COMPUTE
      copy_time := durOf r KEY_COPY
      encode_time := durOf r KEY_ENC + durOf r KEY_ENC1 + durOf r KEY_VIDEO
      decode_time := durOf r KEY_DEC + durOf r KEY_VIDEO
      video_enhance_time := durOf r KEY_VIDEO_ENHANCE
      vram := ramOf r KEY_VRAM
      gtt := ramOf r KEY_GTT
      cpuram := ramOf r KEY_CPU })

/-- The reduction loop in read_fdinfo: fold the per-context snapshots into
a map keyed by device, entry(pdev).or_insert(DrmData::new()).add(entry). -/
def reduceDrmData (l : List (Str × DrmData)) : List (Str × DrmData) :=
  l.foldl (fun m e => insertA e.1 (((lookupA m e.1).getD DrmData.new).add e.2) m) []

/-- drm_map as built in read_fdinfo from the per-file contents. -/
def drmMapOf (files : List (Option (List Str))) : List (Nat × Record) :=
  dedupRecords (filterClient (files.map parseFile))

/-- The reduced per-device snapshots of one tick. -/
def snapshotsOf (files : List (Option (List Str))) : List (Str × DrmData) :=
  reduceDrmData ((drmMapOf files).map (fun e => normalizeRecord e.2))

/-- The snapshot pipeline at record level (used to state properties of
individual raw records). -/
def recordsPipeline (rs : List Record) : List (Str × DrmData) :=
  reduceDrmData ((dedupRecords (filterClient rs)).map (fun e => normalizeRecord e.2))

/-- The per-process gpu_usage map: device key to GpuUsage. -/
abbrev GMap := List (Str × GpuUsage)

/-- The update loop over reduced_drm_data in read_fdinfo: remove each
reported device from the seen-before set and insert-or-update its
GpuUsage; a panic inside GpuUsage::update aborts (none). -/
def tickLoop (gpu : GMap) (pdevs : List Str) (reduced : List (Str × DrmData)) (now : Nat) :
    Option (GMap × List Str) :=
  match reduced with
  | [] => some (gpu, pdevs)
  | e :: rest =>
    match ((lookupA gpu e.1).getD (GpuUsage.new now)).update e.2 now with
    | none => none
    | some gu => tickLoop (insertA e.1 gu gpu) (pdevs.filter (fun k => decide (k ≠ e.1))) rest now

/-- The reconciliation tail of read_fdinfo, taking the already-reduced
snapshots: the early return when drm_map is empty (equivalently, when the
reduced map is empty), then the update loop seeded with the current key
set, then eviction of every key not reported this tick. -/
def read_fdinfo_tick (gpu : GMap) (reduced : List (Str × DrmData)) (now : Nat) : Option GMap :=
  if reduced.isEmpty then some gpu
  else
    match tickLoop gpu (gpu.map Prod.fst) reduced now with
    | none => none
    | some gp => some (gp.2.foldl (fun g k => removeA k g) gp.1)

/-- Process::read_fdinfo from the file contents onward: early return
leaving gpu_usage untouched when drm_map is empty, otherwise reduce and
reconcile. -/
def read_fdinfo (gpu : GMap) (files : List (Option (List Str))) (now : Nat) : Option GMap :=
  if (drmMapOf files).isEmpty then some gpu
  else read_fdinfo_tick gpu (snapshotsOf files) now

theorem splitOnceAt_not_mem (c : Char) (s : Str) (h : c ∉ s) : splitOnceAt c s = none := by
  induction s with
  | nil => rfl
  | cons x t ih =>
    rw [List.mem_cons, not_or] at h
    simp only [splitOnceAt]
    rw [if_neg (by rintro rfl; exact h.1 rfl), ih h.2]
    rfl

theorem splitOnceAt_append (c : Char) (a b : Str) (h : c ∉ a) :
    splitOnceAt c (a ++ c :: b) = some (a, b) := by
  induction a with
  | nil => simp [splitOnceAt]
  | cons x t ih =>
    rw [List.mem_cons, not_or] at h
    simp only [List.cons_append, splitOnceAt]
    rw [if_neg (by rintro rfl; exact h.1 rfl), List.append_eq, ih h.2]
    rfl

/-- C3: for a well-formed value "<integer> <unit>", the duration parser
returns the integer converted at the stated unit for ns/us/ms and zero
for any other unit; a value without a space, or with an unparseable
integer, gives zero duration; the memory parser passes kib through,
divides by 1024 for mib (the conversion the reference applies toward its
kibibyte baseline), and multiplies by 1024 (wrapping) for any other
unit. -/
theorem duration_and_ram_parsing (D u : Str) (n : Nat) (hD : ' ' ∉ D)
    (hn : parseU64 D = some n) :
    (duration_from_string (D ++ ' ' :: u) =
      if u = ['n', 's'] then n
      else if u = ['u', 's'] then n * 1000
      else if u = ['m', 's'] then n * 1000000
      else 0) ∧
    (∀ s : Str, ' ' ∉ s → duration_from_string s = 0) ∧
    (∀ E w : Str, ' ' ∉ E → parseU64 E = none →
      duration_from_string (E ++ ' ' :: w) = 0) ∧
    (ram_from_string (D ++ ' ' :: u) =
      if u = ['k', 'i', 'b'] then n
      else if u = ['m', 'i', 'b'] then n / 1024
      else n * 1024 % 2 ^ 64) := by
  refine ⟨?_, ?_, ?_, ?_⟩
  · simp [duration_from_string, splitOnceAt_append _ _ _ hD, hn]
  · intro s hs
    simp [duration_from_string, splitOnceAt_not_mem _ _ hs]
  · intro E w hE hP
    simp [duration_from_string, splitOnceAt_append _ _ _ hE, hP]
  · simp [ram_from_string, splitOnceAt_append _ _ _ hD, hn]

theorem duration_and_ram_parsing_witness :
    (duration_from_string (("150".data) ++ ' ' :: ("ms".data)) =
      if ("ms".data) = ['n', 's'] then 150
      else if ("ms".data) = ['u', 's'] then 150 * 1000
      else if ("ms".data) = ['m', 's'] then 150 * 1000000
      else 0) ∧
    (∀ s : Str, ' ' ∉ s → duration_from_string s = 0) ∧
    (∀ E w : Str, ' ' ∉ E → parseU64 E = none →
      duration_from_string (E ++ ' ' :: w) = 0) ∧
    (ram_from_string (("150".data) ++ ' ' :: ("ms".data)) =
      if ("ms".data) = ['k', 'i', 'b'] then 150
      else if ("ms".data) = ['m', 'i', 'b'] then 150 / 1024
      else 150 * 1024 % 2 ^ 64) :=
  duration_and_ram_parsing ("150".data) ("ms".data) 150 (by decide) (by decide)

theorem durOf_some {r : Record} {k v : Str} (h : r k = some v) :
    durOf r k = duration_from_string v := by
  simp [durOf, h]

theorem durOf_none {r : Record} {k : Str} (h : r k = none) : durOf r k = 0 := by
  simp [durOf, h]

/-- Dropping one key from a record (used to state what a single key
contributes). -/
def removeKey (k : Str) (r : Record) : Record :=
  fun x => if x = k then none else r x

theorem removeKey_ne {k x : Str} (r : Record) (h : x ≠ k) : removeKey k r x = r x :=
  if_neg h

/-- C4: a record carrying the combined-codec drm-engine-video key with
parsed duration X gets X added to its encode busy time and the same X
added to its decode busy time, relative to the same record without that
key. -/
theorem video_fanout (r : Record) (v : Str) (h : r KEY_VIDEO = some v) :
    (normalizeRecord r).2.encode_time
      = (normalizeRecord (removeKey KEY_VIDEO r)).2.encode_time + duration_from_string v ∧
    (normalizeRecord r).2.decode_time
      = (normalizeRecord (removeKey KEY_VIDEO r)).2.decode_time + duration_from_string v := by
  have e1 : removeKey KEY_VIDEO r KEY_ENC = r KEY_ENC := removeKey_ne r (by decide)
  have e2 : removeKey KEY_VIDEO r KEY_ENC1 = r KEY_ENC1 := removeKey_ne r (by decide)
  have e3 : removeKey KEY_VIDEO r KEY_DEC = r KEY_DEC := removeKey_ne r (by decide)
  have e4 : removeKey KEY_VIDEO r KEY_VIDEO = none := if_pos rfl
  constructor
  · simp only [normalizeRecord]
    rw [durOf_some h, durOf_none e4]
    simp only [durOf]
    rw [e1, e2]
    omega
  · simp only [normalizeRecord]
    rw [durOf_some h, durOf_none e4]
    simp only [durOf]
    rw [e3]
    omega

theorem video_fanout_witness :
    (normalizeRecord (fun k => if k = KEY_VIDEO then some ("3 ms".data) else none)).2.encode_time
      = (normalizeRecord (removeKey KEY_VIDEO
          (fun k => if k = KEY_VIDEO then some ("3 ms".data) else none))).2.encode_time
        + duration_from_string ("3 ms".data) ∧
    (normalizeRecord (fun k => if k = KEY_VIDEO then some ("3 ms".data) else none)).2.decode_time
      = (normalizeRecord (removeKey KEY_VIDEO
          (fun k => if k = KEY_VIDEO then some ("3 ms".data) else none))).2.decode_time
        + duration_from_string ("3 ms".data) :=
  video_fanout (fun k => if k = KEY_VIDEO then some ("3 ms".data) else none) ("3 ms".data)
    (if_pos rfl)

/-- C9: GpuUsage::update completes exactly when every new cumulative
engine time is at least the stored previous one; any decrease makes the
per-field Duration subtraction panic (modelled by none) instead of
clamping to zero or resetting the baseline. -/
theorem update_requires_monotone_counters (g : GpuUsage) (nd : DrmData) (t : Nat) :
    (g.update nd t).isSome ↔
      (g.last_drm_data.render_time ≤ nd.render_time ∧
        g.last_drm_data.computation_time ≤ nd.computation_time ∧
        g.last_drm_data.copy_time ≤ nd.copy_time ∧
        g.last_drm_data.encode_time ≤ nd.encode_time ∧
        g.last_drm_data.decode_time ≤ nd.decode_time ∧
        g.last_drm_data.video_enhance_time ≤ nd.video_enhance_time) := by
  simp only [GpuUsage.update, durSub, bind, Option.bind]
  split_ifs <;> simp_all

/-- C8: GpuUsage::new starts from the zero snapshot stamped with the
discovery time, and the first update of a freshly observed device (no
stored entry) stores exactly the freshly computed cumulative snapshot,
with all rates zero since no wall time has elapsed since discovery. -/
theorem first_observation_state (gpu : GMap) (p : Str) (v : DrmData) (t : Nat)
    (h : lookupA gpu p = none) :
    (GpuUsage.new t).last_drm_data = DrmData.new ∧
    (GpuUsage.new t).last_calc_timestamp = t ∧
    ((lookupA gpu p).getD (GpuUsage.new t)).update v t =
      some { render := 0, computation := 0, copy := 0, encode := 0, decode := 0,
             video_enhance := 0, last_drm_data := v, last_calc_timestamp := t } := by
  refine ⟨rfl, rfl, ?_⟩
  rw [h]
  simp [GpuUsage.update, GpuUsage.new, DrmData.new, durSub, nanosToSecs]

theorem first_observation_state_witness :
    (GpuUsage.new 7).last_drm_data = DrmData.new ∧
    (GpuUsage.new 7).last_calc_timestamp = 7 ∧
    ((lookupA ([] : GMap) ['a']).getD (GpuUsage.new 7)).update DrmData.new 7 =
      some { render := 0, computation := 0, copy := 0, encode := 0, decode := 0,
             video_enhance := 0, last_drm_data := DrmData.new, last_calc_timestamp := 7 } :=
  first_observation_state [] ['a'] DrmData.new 7 rfl

/-- C1: at the documented example (previous render time 100 ms at t = 0,
new render time 150 ms at t = 0.5 s) the reference update multiplies the
busy delta by the elapsed time, yielding 1/40 = 0.025, while the
documented divide-form formula yields 1/10 = 0.1; the code therefore does
not implement the intended formula. -/
theorem rate_formula_defect :
    (GpuUsage.update
        { render := 0, computation := 0, copy := 0, encode := 0, decode := 0,
          video_enhance := 0,
          last_drm_data :=
            { render_time := 100000000, computation_time := 0, copy_time := 0,
              encode_time := 0, decode_time := 0, video_enhance_time := 0,
              vram := 0, gtt := 0, cpuram := 0 },
          last_calc_timestamp := 0 }
        { render_time := 150000000, computation_time := 0, copy_time := 0,
          encode_time := 0, decode_time := 0, video_enhance_time := 0,
          vram := 0, gtt := 0, cpuram := 0 }
        500000000).map GpuUsage.render = some (1 / 40) ∧
    specRate 50000000 500000000 = 1 / 10 ∧
    ((1 : ℚ) / 40) ≠ 1 / 10 := by
  refine ⟨?_, ?_, by norm_num⟩
  · simp only [GpuUsage.update, durSub, nanosToSecs, bind, Option.bind]
    norm_num
  · simp only [specRate, nanosToSecs]
    norm_num

theorem lookupA_insertA_self {α β : Type} [DecidableEq α] (l : List (α × β)) (k : α) (v : β) :
    lookupA (insertA k v l) k = some v := by
  induction l with
  | nil => simp [insertA, lookupA]
  | cons e t ih =>
    by_cases h : e.1 = k
    · simp [insertA, h, lookupA]
    · simp [insertA, h, lookupA, ih]

theorem lookupA_insertA_ne {α β : Type} [DecidableEq α] (l : List (α × β)) (k k' : α) (v : β)
    (h : k' ≠ k) : lookupA (insertA k v l) k' = lookupA l k' := by
  induction l with
  | nil =>
    simp [insertA, lookupA]
    exact fun hh => h hh.symm
  | cons e t ih =>
    by_cases he : e.1 = k
    · simp only [insertA, if_pos he, lookupA]
      rw [if_neg (fun hh : k = k' => h hh.symm), if_neg (fun hh : e.1 = k' => h (he ▸ hh).symm)]
    · simp only [insertA, if_neg he, lookupA]
      by_cases hx : e.1 = k' <;> simp [hx, ih]

theorem lookupA_isSome_iff {α β : Type} [DecidableEq α] (l : List (α × β)) (k : α) :
    (lookupA l k).isSome = true ↔ k ∈ l.map Prod.fst := by
  induction l with
  | nil => simp [lookupA]
  | cons e t ih =>
    rw [List.map_cons, List.mem_cons]
    by_cases h : e.1 = k
    · simp [lookupA, h]
    · simp only [lookupA, if_neg h, ih]
      constructor
      · exact fun hm => Or.inr hm
      · rintro (rfl | hm)
        · exact absurd rfl h
        · exact hm

theorem lookupA_removeA {α β : Type} [DecidableEq α] (l : List (α × β)) (k x : α) :
    lookupA (removeA k l) x = if x = k then none else lookupA l x := by
  induction l with
  | nil => simp [removeA, lookupA]
  | cons e t ih =>
    by_cases he : e.1 = k
    · have h2 : removeA k (e :: t) = removeA k t := by
        simp [removeA, List.filter_cons, he]
      rw [h2, ih]
      by_cases hx : x = k
      · simp [hx]
      · have hne : e.1 ≠ x := fun hh => hx (hh.symm.trans he)
        simp [lookupA, if_neg hne, hx]
    · have h2 : removeA k (e :: t) = e :: removeA k t := by
        simp [removeA, List.filter_cons, he]
      rw [h2]
      by_cases hex : e.1 = x
      · have hxk : ¬ x = k := fun hh => he (hex.symm ▸ hh)
        simp [lookupA, hex, hxk]
      · simp [lookupA, hex, ih]

theorem lookupA_removeFold {α β : Type} [DecidableEq α] (ks : List α) (g : List (α × β)) (x : α) :
    lookupA (ks.foldl (fun m k => removeA k m) g) x
      = if x ∈ ks then none else lookupA g x := by
  induction ks generalizing g with
  | nil => simp
  | cons k t ih =>
    simp only [List.foldl_cons]
    rw [ih]
    by_cases hx : x ∈ t
    · simp [hx]
    · by_cases hk : x = k <;> simp [hx, hk, lookupA_removeA]

theorem lookupA_dedup_aux (l : List Record) (acc : List (Nat × Record)) (k : Nat)
    (h : (lookupA acc k).isSome = true ∨ ∃ r ∈ l, clientKey r = k) :
    (lookupA (l.foldl (fun m r => insertA (clientKey r) r m) acc) k).isSome = true := by
  induction l generalizing acc with
  | nil =>
    rcases h with h | ⟨r, hr, _⟩
    · exact h
    · cases hr
  | cons r t ih =>
    simp only [List.foldl_cons]
    apply ih
    by_cases hk : clientKey r = k
    · left
      rw [← hk, lookupA_insertA_self]
      rfl
    · rcases h with h | ⟨r', hr', hk'⟩
      · left
        rw [lookupA_insertA_ne _ _ _ _ (fun hh => hk hh.symm)]
        exact h
      · rcases List.mem_cons.mp hr' with rfl | hmem
        · exact absurd hk' hk
        · right
          exact ⟨r', hmem, hk'⟩

theorem mem_keys_insertA {α β : Type} [DecidableEq α] (l : List (α × β)) (k x : α) (v : β) :
    x ∈ (insertA k v l).map Prod.fst ↔ x = k ∨ x ∈ l.map Prod.fst := by
  induction l with
  | nil => simp [insertA]
  | cons e t ih =>
    by_cases h : e.1 = k
    · simp [insertA, h]
    · simp [insertA, h, ih]
      tauto

theorem insertA_keys_nodup {α β : Type} [DecidableEq α] (l : List (α × β)) (k : α) (v : β)
    (h : (l.map Prod.fst).Nodup) : ((insertA k v l).map Prod.fst).Nodup := by
  induction l with
  | nil => simp [insertA]
  | cons e t ih =>
    rw [List.map_cons, List.nodup_cons] at h
    by_cases he : e.1 = k
    · simp only [insertA, if_pos he, List.map_cons, List.nodup_cons]
      exact ⟨he ▸ h.1, h.2⟩
    · simp only [insertA, if_neg he, List.map_cons, List.nodup_cons]
      refine ⟨?_, ih h.2⟩
      rw [mem_keys_insertA]
      rintro (hh | hh)
      · exact he hh
      · exact h.1 hh

theorem dedup_keys_nodup_aux (l : List Record) (acc : List (Nat × Record))
    (h : (acc.map Prod.fst).Nodup) :
    ((l.foldl (fun m r => insertA (clientKey r) r m) acc).map Prod.fst).Nodup := by
  induction l generalizing acc with
  | nil => exact h
  | cons r t ih => exact ih _ (insertA_keys_nodup _ _ _ h)

/-- C10: a record whose client-identifier value does not parse as an
integer is kept and keyed by 0, the same key as a record whose actual
client identifier is 0; drm_map holds at most one record per key (its
keys are distinct), so all such records collide and at most one survives
into normalization, while at least one entry at key 0 does survive. -/
theorem unparseable_client_id_collides (rs : List Record) (r : Record) (v : Str)
    (hv : r DRM_CLIENT_ID = some v) (hp : parseU32 v = none) (hmem : r ∈ rs) :
    clientKey r = 0 ∧
    (∀ (r' : Record) (v' : Str), r' DRM_CLIENT_ID = some v' → parseU32 v' = some 0 →
      clientKey r' = 0) ∧
    ((dedupRecords (filterClient rs)).map Prod.fst).Nodup ∧
    (lookupA (dedupRecords (filterClient rs)) 0).isSome = true := by
  have hk : clientKey r = 0 := by simp [clientKey, hv, hp]
  refine ⟨hk, ?_, ?_, ?_⟩
  · intro r' v' h1 h2
    simp [clientKey, h1, h2]
  · exact dedup_keys_nodup_aux _ [] (by simp)
  · apply lookupA_dedup_aux
    right
    refine ⟨r, ?_, hk⟩
    simp [filterClient, List.mem_filter, hmem, hv]

theorem unparseable_client_id_collides_witness :
    clientKey (fun k => if k = DRM_CLIENT_ID then some ("abc".data) else none) = 0 ∧
    (∀ (r' : Record) (v' : Str), r' DRM_CLIENT_ID = some v' → parseU32 v' = some 0 →
      clientKey r' = 0) ∧
    ((dedupRecords (filterClient
        [fun k => if k = DRM_CLIENT_ID then some ("abc".data) else none])).map Prod.fst).Nodup ∧
    (lookupA (dedupRecords (filterClient
        [fun k => if k = DRM_CLIENT_ID then some ("abc".data) else none])) 0).isSome = true :=
  unparseable_client_id_collides
    [fun k => if k = DRM_CLIENT_ID then some ("abc".data) else none]
    (fun k => if k = DRM_CLIENT_ID then some ("abc".data) else none)
    ("abc".data) (if_pos rfl) (by decide) (List.mem_singleton.mpr rfl)

/-- C6: a raw record lacking the client-identifier key is dropped by the
filter preceding deduplication and normalization, so the per-device
snapshots of the tick are the same with or without it, whatever other
keys it carries. -/
theorem missing_client_id_discarded (a b : List Record) (r : Record)
    (h : r DRM_CLIENT_ID = none) :
    recordsPipeline (a ++ r :: b) = recordsPipeline (a ++ b) := by
  have hf : filterClient (a ++ r :: b) = filterClient (a ++ b) := by
    simp [filterClient, List.filter_append, List.filter_cons, h]
  simp [recordsPipeline, hf]

theorem missing_client_id_discarded_witness :
    recordsPipeline ([] ++ (fun k => if k = KEY_VIDEO then some ("3 ms".data) else none) :: [])
      = recordsPipeline ([] ++ []) :=
  missing_client_id_discarded [] []
    (fun k => if k = KEY_VIDEO then some ("3 ms".data) else none) (by decide)

/-- C7: parsing keeps exactly the lines starting with the drm prefix;
each such line with a colon is split at its first colon into the key and
the start-trimmed value and inserted into the mapping; non-matching lines
are ignored; and an unreadable file yields the empty mapping. -/
theorem record_parser_contract (a : List Str) (kL rest : Str)
    (hk : ':' ∉ kL) (hdrm : startsWithDrm (kL ++ ':' :: rest) = true) :
    (∀ k, parseFile none k = none) ∧
    (∀ ls1 ls2 l, startsWithDrm l = false →
      parseFile (some (ls1 ++ l :: ls2)) = parseFile (some (ls1 ++ ls2))) ∧
    parseFile (some (a ++ [kL ++ ':' :: rest]))
      = recInsert (parseFile (some a)) (kL, trimStart rest) := by
  have hsplit : splitLine (kL ++ ':' :: rest) = (kL, trimStart rest) := by
    simp [splitLine, splitOnceAt_append _ _ _ hk]
  refine ⟨fun k => rfl, ?_, ?_⟩
  · intro ls1 ls2 l hl
    simp [parseFile, List.filter_append, List.filter_cons, hl]
  · simp only [parseFile, List.filter_append, List.filter_cons, hdrm, if_pos,
      List.filter_nil, List.map_append, List.map_cons, List.map_nil, List.foldl_append,
      List.foldl_cons, List.foldl_nil, hsplit]

/-- Duration::MAX in nanoseconds. -/
def DURATION_MAX_NANOS : Nat := (2 ^ 64 - 1) * 1000000000 + 999999999

/-- The per-context snapshots of one tick that share the device key k
(stated from the spec wording of the Device Reducer, for comparison with
reduceDrmData). -/
def keyContexts (l : List (Str × DrmData)) (k : Str) : List DrmData :=
  (l.filter (fun e => decide (e.1 = k))).map Prod.snd

theorem reduce_lookup_aux (l : List (Str × DrmData)) (acc : List (Str × DrmData)) (k : Str) :
    lookupA (l.foldl (fun m e => insertA e.1 (((lookupA m e.1).getD DrmData.new).add e.2) m) acc) k
      = if l.filter (fun e => decide (e.1 = k)) = [] then lookupA acc k
        else some (((l.filter (fun e => decide (e.1 = k))).map Prod.snd).foldl
            DrmData.add ((lookupA acc k).getD DrmData.new)) := by
  induction l generalizing acc with
  | nil => simp
  | cons e t ih =>
    simp only [List.foldl_cons, List.filter_cons]
    by_cases he : e.1 = k
    · subst he
      rw [ih]
      have hself := lookupA_insertA_self acc e.1 (((lookupA acc e.1).getD DrmData.new).add e.2)
      by_cases ht : t.filter (fun x => decide (x.1 = e.1)) = []
      · simp [ht, hself]
      · simp [ht, hself]
    · have hne : k ≠ e.1 := fun hh => he hh.symm
      rw [ih]
      rw [lookupA_insertA_ne acc e.1 k (((lookupA acc e.1).getD DrmData.new).add e.2) hne]
      have hd : decide (e.1 = k) = false := decide_eq_false he
      simp only [hd, Bool.false_eq_true, if_false]

theorem foldl_add_spec (vals : List DrmData) (d : DrmData)
    (h1 : d.vram < 2 ^ 64) (h2 : d.gtt < 2 ^ 64) (h3 : d.cpuram < 2 ^ 64) :
    vals.foldl DrmData.add d =
      { render_time := d.render_time + (vals.map DrmData.render_time).sum
        computation_time := d.computation_time + (vals.map DrmData.computation_time).sum
        copy_time := d.copy_time + (vals.map DrmData.copy_time).sum
        encode_time := d.encode_time + (vals.map DrmData.encode_time).sum
        decode_time := d.decode_time + (vals.map DrmData.decode_time).sum
        video_enhance_time := d.video_enhance_time + (vals.map DrmData.video_enhance_time).sum
        vram := (d.vram + (vals.map DrmData.vram).sum) % 2 ^ 64
        gtt := (d.gtt + (vals.map DrmData.gtt).sum) % 2 ^ 64
        cpuram := (d.cpuram + (vals.map DrmData.cpuram).sum) % 2 ^ 64 } := by
  induction vals generalizing d with
  | nil =>
    cases d
    simp_all [Nat.mod_eq_of_lt]
  | cons v t ih =>
    rw [List.foldl_cons, ih]
    · simp only [DrmData.add, List.map_cons, List.sum_cons, DrmData.mk.injEq]
      omega
    · simp only [DrmData.add]
      exact Nat.mod_lt _ (by norm_num)
    · simp only [DrmData.add]
      exact Nat.mod_lt _ (by norm_num)
    · simp only [DrmData.add]
      exact Nat.mod_lt _ (by norm_num)

theorem keyContexts_nil_iff (l : List (Str × DrmData)) (k : Str) :
    l.filter (fun e => decide (e.1 = k)) = [] ↔ k ∉ l.map Prod.fst := by
  rw [List.filter_eq_nil_iff]
  constructor
  · intro h hm
    rcases List.mem_map.mp hm with ⟨e, he, hk⟩
    exact absurd (of_decide_eq_true (decide_eq_true hk)) (by simpa using h e he)
  · intro h e he
    simp only [decide_eq_true_eq]
    intro hk
    exact h (List.mem_map.mpr ⟨e, he, hk⟩)

theorem reduce_keys_nodup_aux (l : List (Str × DrmData)) (acc : List (Str × DrmData))
    (h : (acc.map Prod.fst).Nodup) :
    (((l.foldl (fun m e => insertA e.1 (((lookupA m e.1).getD DrmData.new).add e.2) m)
        acc)).map Prod.fst).Nodup := by
  induction l generalizing acc with
  | nil => exact h
  | cons e t ih => exact ih _ (insertA_keys_nodup _ _ _ h)

/-- C5: for every device key appearing among the per-context snapshots of
one tick, the reducer yields exactly one snapshot for that key, each of
whose nine fields is the exact field-wise sum over all contexts sharing
the key (the empty-string key being grouped like any other, as the key is
universally quantified); keys not appearing yield no snapshot. The range
hypotheses keep every intermediate Rust addition below Duration::MAX
(which would panic) and below the u64 wrap. -/
theorem reducer_fieldwise_sum (l : List (Str × DrmData)) (k : Str)
    (hdur : ((keyContexts l k).map DrmData.render_time).sum ≤ DURATION_MAX_NANOS ∧
      ((keyContexts l k).map DrmData.computation_time).sum ≤ DURATION_MAX_NANOS ∧
      ((keyContexts l k).map DrmData.copy_time).sum ≤ DURATION_MAX_NANOS ∧
      ((keyContexts l k).map DrmData.encode_time).sum ≤ DURATION_MAX_NANOS ∧
      ((keyContexts l k).map DrmData.decode_time).sum ≤ DURATION_MAX_NANOS ∧
      ((keyContexts l k).map DrmData.video_enhance_time).sum ≤ DURATION_MAX_NANOS)
    (hmem : ((keyContexts l k).map DrmData.vram).sum < 2 ^ 64 ∧
      ((keyContexts l k).map DrmData.gtt).sum < 2 ^ 64 ∧
      ((keyContexts l k).map DrmData.cpuram).sum < 2 ^ 64) :
    (k ∈ l.map Prod.fst →
      lookupA (reduceDrmData l) k = some
        { render_time := ((keyContexts l k).map DrmData.render_time).sum
          computation_time := ((keyContexts l k).map DrmData.computation_time).sum
          copy_time := ((keyContexts l k).map DrmData.copy_time).sum
          encode_time := ((keyContexts l k).map DrmData.encode_time).sum
          decode_time := ((keyContexts l k).map DrmData.decode_time).sum
          video_enhance_time := ((keyContexts l k).map DrmData.video_enhance_time).sum
          vram := ((keyContexts l k).map DrmData.vram).sum
          gtt := ((keyContexts l k).map DrmData.gtt).sum
          cpuram := ((keyContexts l k).map DrmData.cpuram).sum }) ∧
    (k ∉ l.map Prod.fst → lookupA (reduceDrmData l) k = none) ∧
    ((reduceDrmData l).map Prod.fst).Nodup := by
  refine ⟨?_, ?_, reduce_keys_nodup_aux l [] (by simp)⟩
  · intro hk
    have hne : ¬ l.filter (fun e => decide (e.1 = k)) = [] :=
      fun hh => (keyContexts_nil_iff l k).mp hh hk
    simp only [reduceDrmData]
    rw [reduce_lookup_aux, if_neg hne]
    have hbase : (lookupA ([] : List (Str × DrmData)) k).getD DrmData.new = DrmData.new := rfl
    have hfold : (l.filter (fun e => decide (e.1 = k))).map Prod.snd = keyContexts l k := rfl
    rw [hbase, hfold, foldl_add_spec _ _ (by simp [DrmData.new]) (by simp [DrmData.new])
      (by simp [DrmData.new])]
    have m1 := hmem.1
    have m2 := hmem.2.1
    have m3 := hmem.2.2
    simp only [DrmData.new, Nat.zero_add, Option.some.injEq, DrmData.mk.injEq, true_and,
      and_true]
    omega
  · intro hk
    simp only [reduceDrmData]
    rw [reduce_lookup_aux, if_pos ((keyContexts_nil_iff l k).mpr hk)]
    rfl

theorem reducer_fieldwise_sum_witness :
    (([] : Str) ∈ ([([], (⟨1, 1, 1, 1, 1, 1, 1, 1, 1⟩ : DrmData)),
        ([], (⟨2, 2, 2, 2, 2, 2, 2, 2, 2⟩ : DrmData))] : List (Str × DrmData)).map Prod.fst →
      lookupA (reduceDrmData [([], (⟨1, 1, 1, 1, 1, 1, 1, 1, 1⟩ : DrmData)),
          ([], (⟨2, 2, 2, 2, 2, 2, 2, 2, 2⟩ : DrmData))]) [] = some
        { render_time := ((keyContexts [([], (⟨1, 1, 1, 1, 1, 1, 1, 1, 1⟩ : DrmData)),
            ([], (⟨2, 2, 2, 2, 2, 2, 2, 2, 2⟩ : DrmData))] []).map DrmData.render_time).sum
          computation_time := ((keyContexts [([], (⟨1, 1, 1, 1, 1, 1, 1, 1, 1⟩ : DrmData)),
            ([], (⟨2, 2, 2, 2, 2, 2, 2, 2, 2⟩ : DrmData))] []).map DrmData.computation_time).sum
          copy_time := ((keyContexts [([], (⟨1, 1, 1, 1, 1, 1, 1, 1, 1⟩ : DrmData)),
            ([], (⟨2, 2, 2, 2, 2, 2, 2, 2, 2⟩ : DrmData))] []).map DrmData.copy_time).sum
          encode_time := ((keyContexts [([], (⟨1, 1, 1, 1, 1, 1, 1, 1, 1⟩ : DrmData)),
            ([], (⟨2, 2, 2, 2, 2, 2, 2, 2, 2⟩ : DrmData))] []).map DrmData.encode_time).sum
          decode_time := ((keyContexts [([], (⟨1, 1, 1, 1, 1, 1, 1, 1, 1⟩ : DrmData)),
            ([], (⟨2, 2, 2, 2, 2, 2, 2, 2, 2⟩ : DrmData))] []).map DrmData.decode_time).sum
          video_enhance_time := ((keyContexts [([], (⟨1, 1, 1, 1, 1, 1, 1, 1, 1⟩ : DrmData)),
            ([], (⟨2, 2, 2, 2, 2, 2, 2, 2, 2⟩ : DrmData))] []).map DrmData.video_enhance_time).sum
          vram := ((keyContexts [([], (⟨1, 1, 1, 1, 1, 1, 1, 1, 1⟩ : DrmData)),
            ([], (⟨2, 2, 2, 2, 2, 2, 2, 2, 2⟩ : DrmData))] []).map DrmData.vram).sum
          gtt := ((keyContexts [([], (⟨1, 1, 1, 1, 1, 1, 1, 1, 1⟩ : DrmData)),
            ([], (⟨2, 2, 2, 2, 2, 2, 2, 2, 2⟩ : DrmData))] []).map DrmData.gtt).sum
          cpuram := ((keyContexts [([], (⟨1, 1, 1, 1, 1, 1, 1, 1, 1⟩ : DrmData)),
            ([], (⟨2, 2, 2, 2, 2, 2, 2, 2, 2⟩ : DrmData))] []).map DrmData.cpuram).sum }) ∧
    (([] : Str) ∉ ([([], (⟨1, 1, 1, 1, 1, 1, 1, 1, 1⟩ : DrmData)),
        ([], (⟨2, 2, 2, 2, 2, 2, 2, 2, 2⟩ : DrmData))] : List (Str × DrmData)).map Prod.fst →
      lookupA (reduceDrmData [([], (⟨1, 1, 1, 1, 1, 1, 1, 1, 1⟩ : DrmData)),
          ([], (⟨2, 2, 2, 2, 2, 2, 2, 2, 2⟩ : DrmData))]) [] = none) ∧
    ((reduceDrmData [([], (⟨1, 1, 1, 1, 1, 1, 1, 1, 1⟩ : DrmData)),
        ([], (⟨2, 2, 2, 2, 2, 2, 2, 2, 2⟩ : DrmData))]).map Prod.fst).Nodup :=
  reducer_fieldwise_sum
    [([], (⟨1, 1, 1, 1, 1, 1, 1, 1, 1⟩ : DrmData)), ([], (⟨2, 2, 2, 2, 2, 2, 2, 2, 2⟩ : DrmData))]
    [] (by decide) (by decide)

theorem record_parser_contract_witness :
    (∀ k, parseFile none k = none) ∧
    (∀ ls1 ls2 l, startsWithDrm l = false →
      parseFile (some (ls1 ++ l :: ls2)) = parseFile (some (ls1 ++ ls2))) ∧
    parseFile (some ([] ++ [("drm-a".data) ++ ':' :: (" v1".data)]))
      = recInsert (parseFile (some [])) (("drm-a".data), trimStart (" v1".data)) :=
  record_parser_contract [] ("drm-a".data) (" v1".data) (by decide) (by decide)

theorem tickLoop_spec :
    ∀ (reduced : List (Str × DrmData)) (gpu : GMap) (pdevs : List Str) (now : Nat)
      (g' : GMap) (pd' : List Str),
      tickLoop gpu pdevs reduced now = some (g', pd') →
      (∀ x, x ∉ reduced.map Prod.fst → lookupA g' x = lookupA gpu x) ∧
      (∀ x, x ∈ reduced.map Prod.fst → (lookupA g' x).isSome = true) ∧
      pd' = pdevs.filter (fun x => decide (x ∉ reduced.map Prod.fst)) := by
  intro reduced
  induction reduced with
  | nil =>
    intro gpu pdevs now g' pd' h
    simp only [tickLoop, Option.some.injEq, Prod.mk.injEq] at h
    obtain ⟨h1, h2⟩ := h
    subst h1
    subst h2
    refine ⟨fun x _ => rfl, fun x hx => absurd hx (List.not_mem_nil x), ?_⟩
    simp
  | cons e rest ih =>
    intro gpu pdevs now g' pd' h
    simp only [tickLoop] at h
    cases hup : ((lookupA gpu e.1).getD (GpuUsage.new now)).update e.2 now with
    | none => rw [hup] at h; cases h
    | some gu =>
      rw [hup] at h
      obtain ⟨IH1, IH2, IH3⟩ := ih _ _ _ _ _ h
      refine ⟨?_, ?_, ?_⟩
      · intro x hx
        rw [List.map_cons, List.mem_cons, not_or] at hx
        rw [IH1 x hx.2]
        exact lookupA_insertA_ne gpu e.1 x gu hx.1
      · intro x hx
        rw [List.map_cons, List.mem_cons] at hx
        by_cases hr : x ∈ rest.map Prod.fst
        · exact IH2 x hr
        · rcases hx with rfl | hx
          · rw [IH1 _ hr, lookupA_insertA_self]
            rfl
          · exact absurd hx hr
      · rw [IH3, List.filter_filter]
        apply List.filter_congr
        intro x _
        by_cases h1 : x = e.1
        · have hL : decide (x ≠ e.1) = false := decide_eq_false (not_not_intro h1)
          have hR : decide (x ∉ List.map Prod.fst (e :: rest)) = false :=
            decide_eq_false (not_not_intro (by
              rw [h1, List.map_cons]
              exact List.mem_cons_self e.1 (List.map Prod.fst rest)))
          rw [hL, hR, Bool.and_false]
        · by_cases h2 : x ∈ rest.map Prod.fst
          · have hL : decide (x ∉ List.map Prod.fst rest) = false :=
              decide_eq_false (not_not_intro h2)
            have hR : decide (x ∉ List.map Prod.fst (e :: rest)) = false :=
              decide_eq_false (not_not_intro (by
                rw [List.map_cons]
                exact List.mem_cons_of_mem e.1 h2))
            rw [hL, hR, Bool.false_and]
          · have hL1 : decide (x ∉ List.map Prod.fst rest) = true := decide_eq_true h2
            have hL2 : decide (x ≠ e.1) = true := decide_eq_true h1
            have hR : decide (x ∉ List.map Prod.fst (e :: rest)) = true :=
              decide_eq_true (by
                rw [List.map_cons, List.mem_cons]
                rintro (hh | hh)
                · exact h1 hh
                · exact h2 hh)
            rw [hL1, hL2, hR]
            rfl

/-- C2 (amended): on a tick whose reduced snapshots are non-empty, the
devices present in gpu_usage afterwards are exactly those reported by the
reduced snapshots - reported devices are inserted or updated, unreported
ones are evicted; a tick with no reduced snapshots (drm_map empty)
returns early and leaves the mapping unchanged, evicting nothing. -/
theorem tick_reconciliation (gpu : GMap) (reduced : List (Str × DrmData)) (now : Nat)
    (g' : GMap) (h : read_fdinfo_tick gpu reduced now = some g') :
    (reduced = [] → g' = gpu) ∧
    (reduced ≠ [] → ∀ x : Str, (lookupA g' x).isSome = true ↔ x ∈ reduced.map Prod.fst) := by
  by_cases hr : reduced = []
  · subst hr
    simp only [read_fdinfo_tick, List.isEmpty_nil, if_true, Option.some.injEq] at h
    exact ⟨fun _ => h.symm, fun hc => absurd rfl hc⟩
  · have hE : reduced.isEmpty = false := by
      cases reduced with
      | nil => exact absurd rfl hr
      | cons a b => rfl
    simp only [read_fdinfo_tick, hE, Bool.false_eq_true, if_false] at h
    cases htl : tickLoop gpu (gpu.map Prod.fst) reduced now with
    | none => rw [htl] at h; cases h
    | some gp =>
      obtain ⟨gp1, gp2⟩ := gp
      rw [htl] at h
      simp only [Option.some.injEq] at h
      obtain ⟨S1, S2, S3⟩ := tickLoop_spec reduced gpu (gpu.map Prod.fst) now gp1 gp2 htl
      refine ⟨fun hc => absurd hc hr, fun _ x => ?_⟩
      rw [← h, lookupA_removeFold]
      by_cases hx : x ∈ reduced.map Prod.fst
      · have hx2 : x ∉ gp2 := by
          rw [S3, List.mem_filter]
          rintro ⟨-, hdec⟩
          exact (of_decide_eq_true hdec) hx
        rw [if_neg hx2]
        simp only [hx, iff_true]
        exact S2 x hx
      · constructor
        · intro hs
          by_cases hg : x ∈ gpu.map Prod.fst
          · have hx2 : x ∈ gp2 := by
              rw [S3, List.mem_filter]
              exact ⟨hg, decide_eq_true hx⟩
            rw [if_pos hx2] at hs
            cases hs
          · rcases hmem : x ∈ gp2 with -
            by_cases hx2 : x ∈ gp2
            · rw [if_pos hx2] at hs
              cases hs
            · rw [if_neg hx2, S1 x hx] at hs
              rw [lookupA_isSome_iff] at hs
              exact absurd hs hg
        · intro hmem
          exact absurd hmem hx

theorem tick_reconciliation_witness :
    (([(['b'], DrmData.new)] : List (Str × DrmData)) = [] →
      ([(['b'], (⟨nanosToSecs 0 * nanosToSecs 0, nanosToSecs 0 * nanosToSecs 0,
          nanosToSecs 0 * nanosToSecs 0, nanosToSecs 0 * nanosToSecs 0,
          nanosToSecs 0 * nanosToSecs 0, nanosToSecs 0 * nanosToSecs 0,
          DrmData.new, 5⟩ : GpuUsage))] : GMap)
        = [(['a'], GpuUsage.new 0)]) ∧
    (([(['b'], DrmData.new)] : List (Str × DrmData)) ≠ [] → ∀ x : Str,
      (lookupA ([(['b'], (⟨nanosToSecs 0 * nanosToSecs 0, nanosToSecs 0 * nanosToSecs 0,
          nanosToSecs 0 * nanosToSecs 0, nanosToSecs 0 * nanosToSecs 0,
          nanosToSecs 0 * nanosToSecs 0, nanosToSecs 0 * nanosToSecs 0,
          DrmData.new, 5⟩ : GpuUsage))] : GMap) x).isSome = true ↔
        x ∈ ([(['b'], DrmData.new)] : List (Str × DrmData)).map Prod.fst) :=
  tick_reconciliation [(['a'], GpuUsage.new 0)] [(['b'], DrmData.new)] 5
    [(['b'], (⟨nanosToSecs 0 * nanosToSecs 0, nanosToSecs 0 * nanosToSecs 0,
        nanosToSecs 0 * nanosToSecs 0, nanosToSecs 0 * nanosToSecs 0,
        nanosToSecs 0 * nanosToSecs 0, nanosToSecs 0 * nanosToSecs 0,
        DrmData.new, 5⟩ : GpuUsage))]
    rfl

/-- C2, counterexample to the claim as stated: a tick whose reduced
snapshots are empty (no record passed the client-id filter) hits the
early return and leaves both stale devices in place instead of removing
them. -/
theorem empty_tick_keeps_stale_entries :
    read_fdinfo_tick [(['a'], GpuUsage.new 0), (['b'], GpuUsage.new 0)] [] 5
      = some [(['a'], GpuUsage.new 0), (['b'], GpuUsage.new 0)] ∧
    lookupA [(['a'], GpuUsage.new 0), (['b'], GpuUsage.new 0)] ['b']
      = some (GpuUsage.new 0) := by
  exact ⟨rfl, by decide⟩

/-- Process::read_fdinfo factors through the reduced snapshots: the early
return on an empty drm_map agrees with the tick on the (then empty)
reduced map. -/
theorem read_fdinfo_eq_tick (gpu : GMap) (files : List (Option (List Str))) (now : Nat) :
    read_fdinfo gpu files now = read_fdinfo_tick gpu (snapshotsOf files) now := by
  by_cases h : (drmMapOf files).isEmpty = true
  · have hmap : drmMapOf files = [] := List.isEmpty_iff.mp h
    have hsnap : snapshotsOf files = [] := by
      simp [snapshotsOf, hmap, reduceDrmData]
    simp [read_fdinfo, read_fdinfo_tick, h, hsnap]
  · have h' : (drmMapOf files).isEmpty = false := by
      cases hh : (drmMapOf files).isEmpty
      · rfl
      · exact absurd hh h
    simp [read_fdinfo, h']
